import Mathlib

/-!
Shallow embedding of the Experimentation_Framework statistical engine.

Numeric series are modelled over `ℝ`; counts are `ℤ` (Python ints).
Transcendental library routines (`scipy.stats.norm.ppf`, `norm.cdf`, the
chi-square survival function, Welch's t-test p-value) are passed as explicit
function parameters, since no claim depends on their closed forms.
Python float division by zero raises; the claims stay inside regions where
divisors are nonzero, except where noted in a theorem's hypotheses.
-/

/-- Mean of a list, as `np.mean` / `.mean()` on a 1-D array. -/
noncomputable def npMean (l : List ℝ) : ℝ := l.sum / l.length

/-- Sample variance with `ddof=1`, as `np.var(l, ddof=1)`.
Faithful for lists of length ≥ 2 (at length ≤ 1 numpy yields nan). -/
noncomputable def npVar (l : List ℝ) : ℝ :=
  (l.map (fun x => (x - npMean l) ^ 2)).sum / ((l.length : ℝ) - 1)

/-- Sample covariance with `ddof=1` between two equal-length 1-D arrays. -/
noncomputable def npCov (x y : List ℝ) : ℝ :=
  (List.zipWith (fun a b => (a - npMean x) * (b - npMean y)) x y).sum
    / ((x.length : ℝ) - 1)

/-- The 2×2 matrix returned by `np.cov(y, theta, ddof=1)` on two 1-D arrays:
entry (0,0) is Var(y), (1,1) is Var(θ), off-diagonal is Cov(y,θ). -/
noncomputable def npCovMatrix (y θ : List ℝ) : Fin 2 → Fin 2 → ℝ := fun i j =>
  if i = 0 ∧ j = 0 then npVar y
  else if i = 1 ∧ j = 1 then npVar θ
  else npCov y θ

/-- Numpy broadcast of a 1-D array of length 1 or 2 along the columns of a
2×2 matrix: a length-1 array repeats its single entry. -/
noncomputable def bcastGet (l : List ℝ) (j : Fin 2) : ℝ :=
  if l.length = 1 then l.getD 0 0 else l.getD (j : ℕ) 0

/-- Possible outcomes of `cuped_adjust` (src/src/cuped.py). Because line 4
binds `cov` to the full 2×2 matrix `np.cov(y, theta, ddof=1)` rather than its
(0,1) entry, the non-degenerate branch computes a matrix-valued `c`, and
`y - c * theta` either broadcasts to a 2×2 matrix (series length 1 or 2) or
raises a numpy broadcast `ValueError` (any other length). -/
inductive CupedOut where
  | series (yAdj : List ℝ) (c : ℝ)
  | matrix (yAdj c : Fin 2 → Fin 2 → ℝ)
  | shapeError

/-- `cuped_adjust(y, theta)` from src/src/cuped.py, line by line:
`cov = np.cov(y, theta, ddof=1)` (raises if the lengths differ);
`var = np.var(theta, ddof=1)`; `if var == 0: return y, 0.0`;
`c = cov / var`; `y_adj = y - c * theta`; `return y_adj, c`. -/
noncomputable def cuped_adjust (y θ : List ℝ) : CupedOut :=
  if y.length ≠ θ.length then .shapeError
  else if npVar θ = 0 then .series y 0
  else if y.length = 1 ∨ y.length = 2 then
    .matrix (fun i j => bcastGet y j - (npCovMatrix y θ i j / npVar θ) * bcastGet θ j)
      (fun i j => npCovMatrix y θ i j / npVar θ)
  else .shapeError

/-- How the engine reports a Python exception to its caller. -/
inductive PyError where
  | invalidInput (msg : String)
  | numpyError (msg : String)

/-- The `ABResult` dataclass of src/src/ab_test.py. -/
structure ABResult where
  metric : String
  lift : ℝ
  ci_low : ℝ
  ci_high : ℝ
  p_value : ℝ
  n_a : ℤ
  n_b : ℤ

/-- `ab_proportions` from src/src/ab_test.py, parameterised by the standard
normal cdf `Φ` and quantile `Φ⁻¹` (scipy's `norm.cdf` / `norm.ppf`). -/
noncomputable def ab_proportions (cdf ppf : ℝ → ℝ)
    (success_a total_a success_b total_b : ℤ) (alpha : ℝ)
    (continuity_correction : Bool) : Except PyError ABResult :=
  if total_a ≤ 0 ∨ total_b ≤ 0 then
    .error (.invalidInput "total_a and total_b must be positive.")
  else if ¬ (0 ≤ success_a ∧ success_a ≤ total_a ∧
             0 ≤ success_b ∧ success_b ≤ total_b) then
    .error (.invalidInput "success counts must be between 0 and total.")
  else
    let p_a : ℝ := (success_a : ℝ) / (total_a : ℝ)
    let p_b : ℝ := (success_b : ℝ) / (total_b : ℝ)
    let diff : ℝ := p_b - p_a
    let p_pool : ℝ := ((success_a : ℝ) + (success_b : ℝ)) / ((total_a : ℝ) + (total_b : ℝ))
    let se : ℝ := Real.sqrt (p_pool * (1 - p_pool) * (1 / (total_a : ℝ) + 1 / (total_b : ℝ)))
    let cc : ℝ := if continuity_correction then 1 / (total_a : ℝ) + 1 / (total_b : ℝ) else 0
    let adj_diff : ℝ :=
      if continuity_correction = true ∧ diff ≠ 0 then diff - Real.sign diff * cc else diff
    let z : ℝ := ppf (1 - alpha / 2)
    let ci_low : ℝ := diff - z * se
    let ci_high : ℝ := diff + z * se
    let z_stat : ℝ := if 0 < se then adj_diff / se else 0
    let p_val : ℝ := if 0 < se then 2 * (1 - cdf |z_stat|) else 1
    .ok ⟨"proportion", diff, ci_low, ci_high, p_val, total_a, total_b⟩

/-- The unconditional tail of `ab_means` (src/src/ab_test.py lines 75-94),
run on the (possibly CUPED-adjusted) series: Welch standard error, the Welch
t-test p-value `welch yb ya` (scipy's `ttest_ind(yb, ya, equal_var=False)`,
abstract here), and a normal-approximation confidence interval. -/
noncomputable def ab_means_core (ppf : ℝ → ℝ) (welch : List ℝ → List ℝ → ℝ)
    (ya yb : List ℝ) (alpha : ℝ) : ABResult :=
  let diff : ℝ := npMean yb - npMean ya
  let se : ℝ := Real.sqrt (npVar ya / ya.length + npVar yb / yb.length)
  let z : ℝ := ppf (1 - alpha / 2)
  ⟨"mean", diff, diff - z * se, diff + z * se, welch yb ya, ya.length, yb.length⟩

/-- `ab_means` from src/src/ab_test.py. When both covariate series are given
it calls `cuped_adjust` on each arm; a `.matrix` outcome from the defective
adjuster makes the later `float(p_val)` conversion fail on a size-2 ndarray
(TypeError), and a `.shapeError` outcome is numpy's broadcast ValueError, so
both surface as a numpy-level failure, not the validated `InvalidInput`. -/
noncomputable def ab_means (ppf : ℝ → ℝ) (welch : List ℝ → List ℝ → ℝ)
    (y_a y_b : List ℝ) (alpha : ℝ)
    (cuped_theta_a cuped_theta_b : Option (List ℝ)) : Except PyError ABResult :=
  if y_a.length < 2 ∨ y_b.length < 2 then
    .error (.invalidInput "Both groups must have at least 2 observations.")
  else
    match cuped_theta_a, cuped_theta_b with
    | some θa, some θb =>
      match cuped_adjust y_a θa, cuped_adjust y_b θb with
      | .series ya _, .series yb _ => .ok (ab_means_core ppf welch ya yb alpha)
      | _, _ => .error (.numpyError "shape mismatch in cuped_adjust")
    | _, _ => .ok (ab_means_core ppf welch y_a y_b alpha)

/-- One row of the dict appended per interim look by `sequential_monitor`
(src/sequential.py line 23). -/
structure SequentialLookResult where
  look : ℕ
  z : ℝ
  boundary : ℝ
  stop : Bool

/-- `z_stat_proportions` from src/sequential.py: the pooled-proportion
z-statistic, computed with no input validation. -/
noncomputable def z_stat_proportions (success_a total_a success_b total_b : ℤ) : ℝ :=
  let p_a : ℝ := (success_a : ℝ) / (total_a : ℝ)
  let p_b : ℝ := (success_b : ℝ) / (total_b : ℝ)
  let p_pool : ℝ := ((success_a : ℝ) + (success_b : ℝ)) / ((total_a : ℝ) + (total_b : ℝ))
  let se : ℝ := Real.sqrt (p_pool * (1 - p_pool) * (1 / (total_a : ℝ) + 1 / (total_b : ℝ)))
  (p_b - p_a) / se

/-- `pocock_boundaries` from src/sequential.py: the one shared critical value
`Φ⁻¹(1 - alpha / (2 * ln(1 + looks)))`, repeated `looks` times. -/
noncomputable def pocock_boundaries (ppf : ℝ → ℝ) (alpha : ℝ) (looks : ℕ) : List ℝ :=
  List.replicate looks (ppf (1 - alpha / (2 * Real.log (1 + (looks : ℝ)))))

/-- The look result built in iteration `i` (1-based) of the monitor loop:
data `stream[i-1]`, absolute z-statistic, boundary `boundaries[i-1]`,
and the strict comparison `stop = z > boundary`. -/
noncomputable def mkLook (bs : List ℝ) (stream_a stream_b : List (ℤ × ℤ))
    (i : ℕ) : SequentialLookResult :=
  let a := stream_a.getD (i - 1) (0, 0)
  let b := stream_b.getD (i - 1) (0, 0)
  let z : ℝ := |z_stat_proportions a.1 a.2 b.1 b.2|
  let bd : ℝ := bs.getD (i - 1) 0
  ⟨i, z, bd, if bd < z then true else false⟩

/-- The monitor loop over the remaining look indices: append each look's
result and break out right after the first `stop`. -/
noncomputable def monitorSteps (bs : List ℝ) (stream_a stream_b : List (ℤ × ℤ)) :
    List ℕ → List SequentialLookResult
  | [] => []
  | i :: rest =>
    let r := mkLook bs stream_a stream_b i
    if r.stop = true then [r] else r :: monitorSteps bs stream_a stream_b rest

/-- `sequential_monitor` from src/sequential.py: boundaries, then the loop
`for i in range(1, looks+1)` with early break on `stop`. -/
noncomputable def sequential_monitor (ppf : ℝ → ℝ)
    (stream_a stream_b : List (ℤ × ℤ)) (looks : ℕ) (alpha : ℝ) :
    List SequentialLookResult :=
  monitorSteps (pocock_boundaries ppf alpha looks) stream_a stream_b
    (List.range' 1 looks)

/-- The `PowerParams` dataclass of src/src/power.py. -/
structure PowerParams where
  baseline : ℝ
  mde : ℝ
  alpha : ℝ
  power : ℝ
  two_tailed : Bool

/-- `sample_size_proportions` from src/src/power.py, parameterised by
`norm.ppf`; `int(np.ceil(num / den))` is the integer ceiling. -/
noncomputable def sample_size_proportions (ppf : ℝ → ℝ) (params : PowerParams) : ℤ :=
  let p1 : ℝ := params.baseline
  let p2 : ℝ := params.baseline + params.mde
  let alpha : ℝ := params.alpha
  let beta : ℝ := 1 - params.power
  let z_alpha : ℝ := if params.two_tailed then ppf (1 - alpha / 2) else ppf (1 - alpha)
  let z_beta : ℝ := ppf (1 - beta)
  let p_bar : ℝ := (p1 + p2) / 2
  let q_bar : ℝ := 1 - p_bar
  let num : ℝ := (z_alpha * Real.sqrt (2 * p_bar * q_bar) +
    z_beta * Real.sqrt (p1 * (1 - p1) + p2 * (1 - p2))) ^ 2
  let den : ℝ := (p2 - p1) ^ 2
  ⌈num / den⌉

/-- The dict returned by `srm_check` (src/src/guardrails.py). -/
structure GuardrailResult where
  chi2 : ℝ
  p_value : ℝ
  srm_flag : Bool

/-- `srm_check` from src/src/guardrails.py: expected counts are the ratios
times the total; `scipy.stats.chisquare` computes `Σ (obs-exp)²/exp` and its
p-value is the df-1 chi-square survival function `chi2sf` (abstract here);
the flag is the fixed `p < 0.01` threshold — the function takes no alpha. -/
noncomputable def srm_check (chi2sf : ℝ → ℝ) (n_a n_b : ℕ)
    (ratio_a ratio_b : ℝ) : GuardrailResult :=
  let total : ℝ := (n_a : ℝ) + (n_b : ℝ)
  let e_a : ℝ := ratio_a * total
  let e_b : ℝ := ratio_b * total
  let stat : ℝ := ((n_a : ℝ) - e_a) ^ 2 / e_a + ((n_b : ℝ) - e_b) ^ 2 / e_b
  let p : ℝ := chi2sf stat
  ⟨stat, p, if p < 0.01 then true else false⟩

/-- The shortest prefix of a result list that ends at its first `stop` entry
(the whole list when no entry stops): the shape of the monitor's early break. -/
def stopTake : List SequentialLookResult → List SequentialLookResult
  | [] => []
  | r :: rest => if r.stop = true then [r] else r :: stopTake rest

theorem monitorSteps_eq_stopTake (bs : List ℝ) (pa pb : List (ℤ × ℤ)) :
    ∀ l : List ℕ, monitorSteps bs pa pb l = stopTake (l.map (mkLook bs pa pb))
  | [] => rfl
  | i :: rest => by
    simp only [monitorSteps, List.map_cons, stopTake]
    by_cases h : (mkLook bs pa pb i).stop = true
    · simp [h]
    · simp [h, monitorSteps_eq_stopTake bs pa pb rest]

theorem stopTake_eq_take : ∀ l : List SequentialLookResult,
    stopTake l = l.take (stopTake l).length
  | [] => rfl
  | r :: rest => by
    by_cases h : r.stop = true
    · simp [stopTake, h]
    · simp only [stopTake, h, if_false, Bool.false_eq_true, List.length_cons,
        List.take_succ_cons, List.cons.injEq, true_and]
      exact stopTake_eq_take rest

theorem stopTake_length_le : ∀ l : List SequentialLookResult,
    (stopTake l).length ≤ l.length
  | [] => le_refl 0
  | r :: rest => by
    by_cases h : r.stop = true
    · simp [stopTake, h]
    · simpa [stopTake, h] using stopTake_length_le rest

theorem mem_of_mem_stopTake {a : SequentialLookResult}
    {l : List SequentialLookResult} (h : a ∈ stopTake l) : a ∈ l := by
  rw [stopTake_eq_take l] at h
  exact List.mem_of_mem_take h

theorem stopTake_stop_false : ∀ (l : List SequentialLookResult) (j : ℕ)
    (h : j + 1 < (stopTake l).length), (stopTake l)[j].stop = false
  | [], j, h => by simp [stopTake] at h
  | r :: rest, j, h => by
    by_cases hs : r.stop = true
    · simp [stopTake, hs] at h
    · match j with
      | 0 =>
        simp only [stopTake, hs, if_false, Bool.false_eq_true, List.getElem_cons_zero]
      | j + 1 =>
        simp only [stopTake, hs, if_false, Bool.false_eq_true, List.length_cons] at h
        simp only [stopTake, hs, if_false, Bool.false_eq_true, List.getElem_cons_succ]
        exact stopTake_stop_false rest j (Nat.lt_of_succ_lt_succ h)

theorem stopTake_last_stop : ∀ l : List SequentialLookResult,
    (stopTake l).length < l.length →
    ∃ r, (stopTake l).getLast? = some r ∧ r.stop = true
  | [], h => absurd h (by simp [stopTake])
  | r :: rest, h => by
    by_cases hs : r.stop = true
    · exact ⟨r, by simp [stopTake, hs], hs⟩
    · simp only [stopTake, hs, if_false, Bool.false_eq_true, List.length_cons] at h ⊢
      obtain ⟨r', hr', hstop⟩ := stopTake_last_stop rest (Nat.lt_of_succ_lt_succ h)
      refine ⟨r', ?_, hstop⟩
      match hrest : stopTake rest with
      | [] => rw [hrest] at hr'; exact absurd hr' (by simp)
      | x :: xs => rw [hrest] at hr'; rw [List.getLast?_cons_cons, hr']

theorem stopTake_of_no_stop : ∀ l : List SequentialLookResult,
    (∀ r ∈ l, r.stop = false) → stopTake l = l
  | [], _ => rfl
  | r :: rest, h => by
    have hr : r.stop = false := h r (List.mem_cons_self r rest)
    simp only [stopTake, hr, Bool.false_eq_true, if_false, List.cons.injEq, true_and]
    exact stopTake_of_no_stop rest fun x hx => h x (List.mem_cons_of_mem r hx)

theorem stopTake_length_ge : ∀ (l : List SequentialLookResult) (k : ℕ),
    (∀ r ∈ l.take k, r.stop = false) → k < l.length → k + 1 ≤ (stopTake l).length
  | [], k, _, hk => absurd hk (by simp)
  | r :: rest, 0, _, _ => by
    by_cases hs : r.stop = true <;> simp [stopTake, hs]
  | r :: rest, k + 1, h, hk => by
    have hr : r.stop = false := h r (by simp)
    simp only [stopTake, hr, Bool.false_eq_true, if_false, List.length_cons]
    have := stopTake_length_ge rest k
      (fun x hx => h x (by simp [List.take_succ_cons, hx]))
      (Nat.lt_of_succ_lt_succ hk)
    omega

theorem getD_replicate_of_lt {α : Type} (n k : ℕ) (a d : α) (h : k < n) :
    (List.replicate n a).getD k d = a := by
  rw [List.getD_eq_getElem?_getD, List.getElem?_replicate, if_pos h]
  rfl

theorem stopTake_getElem (l : List SequentialLookResult) (j : ℕ)
    (hj : j < (stopTake l).length) :
    (stopTake l)[j] = l.get ⟨j, lt_of_lt_of_le hj (stopTake_length_le l)⟩ := by
  rw [List.get_eq_getElem]
  rw [List.getElem_of_eq (stopTake_eq_take l) hj, List.getElem_take]

/-- C2: with `L` planned looks, every look shares the one Pocock-style
boundary `Φ⁻¹(1 − alpha/(2·ln(1+L)))`; the monitor walks the looks in order
`1..L`, appends one result per look evaluated — each carrying that look's
absolute pooled-proportion z-statistic and the shared boundary — and returns
exactly the prefix of looks up to and including the first stopping look
(all `L` looks when no look stops). -/
theorem sequential_monitor_shared_boundary_early_stop
    (ppf : ℝ → ℝ) (alpha : ℝ) (looks : ℕ) (stream_a stream_b : List (ℤ × ℤ))
    (hla : looks ≤ stream_a.length) (hlb : looks ≤ stream_b.length)
    (c : ℝ) (hc : c = ppf (1 - alpha / (2 * Real.log (1 + (looks : ℝ)))))
    (res full : List SequentialLookResult)
    (hres : res = sequential_monitor ppf stream_a stream_b looks alpha)
    (hfull : full = (List.range' 1 looks).map
      (mkLook (pocock_boundaries ppf alpha looks) stream_a stream_b)) :
    pocock_boundaries ppf alpha looks = List.replicate looks c ∧
    (∀ r ∈ res, r.boundary = c) ∧
    res = full.take res.length ∧
    (∀ j (hj : j < res.length),
      res[j].look = j + 1 ∧
      res[j].z = |z_stat_proportions (stream_a.getD j (0, 0)).1
        (stream_a.getD j (0, 0)).2 (stream_b.getD j (0, 0)).1
        (stream_b.getD j (0, 0)).2| ∧
      res[j].stop = (if c < res[j].z then true else false)) ∧
    (∀ j (hj : j + 1 < res.length), res[j].stop = false) ∧
    (res.length < looks → ∃ r, res.getLast? = some r ∧ r.stop = true) ∧
    ((∀ r ∈ full, r.stop = false) → res = full) := by
  subst hc hres hfull
  have hst : sequential_monitor ppf stream_a stream_b looks alpha =
      stopTake ((List.range' 1 looks).map
        (mkLook (pocock_boundaries ppf alpha looks) stream_a stream_b)) :=
    monitorSteps_eq_stopTake _ _ _ _
  rw [hst]
  set bs := pocock_boundaries ppf alpha looks with hbs
  set full := (List.range' 1 looks).map (mkLook bs stream_a stream_b) with hfull
  have hfl : full.length = looks := by
    rw [hfull, List.length_map, List.length_range']
  refine ⟨rfl, ?_, stopTake_eq_take full, ?_, ?_, ?_, stopTake_of_no_stop full⟩
  · intro r hr
    obtain ⟨i, hi, rfl⟩ := List.mem_map.mp (mem_of_mem_stopTake hr)
    obtain ⟨hi1, hi2⟩ := List.mem_range'_1.mp hi
    show bs.getD (i - 1) 0 = _
    rw [hbs]
    exact getD_replicate_of_lt looks (i - 1) _ 0 (by omega)
  · intro j hj
    have hjl : j < looks := by
      have := stopTake_length_le full
      omega
    have hjf : j < full.length := by omega
    have hjm : (stopTake full)[j] = mkLook bs stream_a stream_b (1 + j) := by
      rw [stopTake_getElem full j hj, List.get_eq_getElem,
        List.getElem_of_eq hfull hjf, List.getElem_map, List.getElem_range']
      norm_num
    have hbd : bs.getD (1 + j - 1) 0 =
        ppf (1 - alpha / (2 * Real.log (1 + (looks : ℝ)))) := by
      rw [Nat.add_sub_cancel_left, hbs]
      show (List.replicate looks
        (ppf (1 - alpha / (2 * Real.log (1 + (looks : ℝ)))))).getD j 0 = _
      exact getD_replicate_of_lt looks j _ 0 hjl
    rw [hjm]
    refine ⟨Nat.add_comm 1 j, ?_, ?_⟩
    · show |z_stat_proportions (stream_a.getD (1 + j - 1) (0, 0)).1
        (stream_a.getD (1 + j - 1) (0, 0)).2 (stream_b.getD (1 + j - 1) (0, 0)).1
        (stream_b.getD (1 + j - 1) (0, 0)).2| = _
      rw [Nat.add_sub_cancel_left]
    · show (if bs.getD (1 + j - 1) 0 <
          (mkLook bs stream_a stream_b (1 + j)).z then true else false) = _
      rw [hbd]
  · exact fun j hj => stopTake_stop_false full j hj
  · intro hlt
    exact stopTake_last_stop full (by omega)

/-- C2 witness: the monitor theorem instantiated on a concrete 2-look stream
with a constant stand-in for the normal quantile. -/
theorem sequential_monitor_shared_boundary_early_stop_witness :
    2 ≤ ([((0 : ℤ), (2 : ℤ)), (0, 4)] : List (ℤ × ℤ)).length ∧
    sequential_monitor (fun _ => (2 : ℝ)) [((0 : ℤ), (2 : ℤ)), (0, 4)]
        [((2 : ℤ), (2 : ℤ)), (1, 4)] 2 (1 / 20) =
      ((List.range' 1 2).map (mkLook (pocock_boundaries (fun _ => (2 : ℝ)) (1 / 20) 2)
        [((0 : ℤ), (2 : ℤ)), (0, 4)] [((2 : ℤ), (2 : ℤ)), (1, 4)])).take
        (sequential_monitor (fun _ => (2 : ℝ)) [((0 : ℤ), (2 : ℤ)), (0, 4)]
          [((2 : ℤ), (2 : ℤ)), (1, 4)] 2 (1 / 20)).length :=
  ⟨by simp,
    (sequential_monitor_shared_boundary_early_stop (fun _ => (2 : ℝ)) (1 / 20) 2
      [((0 : ℤ), (2 : ℤ)), (0, 4)] [((2 : ℤ), (2 : ℤ)), (1, 4)]
      (by simp) (by simp) 2 rfl _ _ rfl rfl).2.2.1⟩

/-- C10: stopping is a strict comparison: at any look whose absolute
z-statistic exactly equals the shared boundary, the stop flag is `false`, and
— provided no earlier look stopped — monitoring continues to the next look. -/
theorem sequential_monitor_strict_boundary
    (ppf : ℝ → ℝ) (alpha : ℝ) (looks : ℕ) (stream_a stream_b : List (ℤ × ℤ))
    (i : ℕ) (hi1 : 1 ≤ i) (hi2 : i ≤ looks)
    (hz : (mkLook (pocock_boundaries ppf alpha looks) stream_a stream_b i).z =
      ppf (1 - alpha / (2 * Real.log (1 + (looks : ℝ)))))
    (hprev : ∀ j, 1 ≤ j → j < i →
      (mkLook (pocock_boundaries ppf alpha looks) stream_a stream_b j).stop = false) :
    (mkLook (pocock_boundaries ppf alpha looks) stream_a stream_b i).stop = false ∧
    (i < looks →
      i + 1 ≤ (sequential_monitor ppf stream_a stream_b looks alpha).length) := by
  set bs := pocock_boundaries ppf alpha looks with hbs
  have hbd : bs.getD (i - 1) 0 =
      ppf (1 - alpha / (2 * Real.log (1 + (looks : ℝ)))) := by
    rw [hbs]
    show (List.replicate looks
      (ppf (1 - alpha / (2 * Real.log (1 + (looks : ℝ)))))).getD (i - 1) 0 = _
    exact getD_replicate_of_lt looks (i - 1) _ 0 (by omega)
  have hstop : (mkLook bs stream_a stream_b i).stop = false := by
    show (if bs.getD (i - 1) 0 <
      (mkLook bs stream_a stream_b i).z then true else false) = false
    rw [hbd, ← hz]
    simp
  refine ⟨hstop, fun hlt => ?_⟩
  show i + 1 ≤ (monitorSteps bs stream_a stream_b (List.range' 1 looks)).length
  rw [monitorSteps_eq_stopTake]
  apply stopTake_length_ge
  · intro r hr
    obtain ⟨n, hn, hrn⟩ := List.mem_iff_getElem.mp hr
    have hni : n < i := by
      have := List.length_take i ((List.range' 1 looks).map (mkLook bs stream_a stream_b))
      omega
    have hnf : n < ((List.range' 1 looks).map (mkLook bs stream_a stream_b)).length := by
      rw [List.length_map, List.length_range']; omega
    rw [List.getElem_take, List.getElem_map, List.getElem_range'] at hrn
    subst hrn
    rcases Nat.lt_or_ge (1 + 1 * n) i with h | h
    · exact hprev (1 + 1 * n) (by omega) h
    · have : 1 + 1 * n = i := by omega
      rw [this]
      exact hstop
  · rw [List.length_map, List.length_range']
    omega

theorem z_stat_eval_0_2_2_2 : z_stat_proportions 0 2 2 2 = 2 := by
  simp only [z_stat_proportions]
  have h : ((((0 : ℤ) : ℝ) + ((2 : ℤ) : ℝ)) / (((2 : ℤ) : ℝ) + ((2 : ℤ) : ℝ))) *
      (1 - (((0 : ℤ) : ℝ) + ((2 : ℤ) : ℝ)) / (((2 : ℤ) : ℝ) + ((2 : ℤ) : ℝ))) *
      (1 / ((2 : ℤ) : ℝ) + 1 / ((2 : ℤ) : ℝ)) = (1 / 2) ^ 2 := by
    push_cast; norm_num
  rw [h, Real.sqrt_sq (by norm_num : (0 : ℝ) ≤ 1 / 2)]
  push_cast
  norm_num

/-- C1: `cuped_adjust` does not return the scalar OLS coefficient: because
line 4 of src/src/cuped.py binds the full 2×2 `np.cov` matrix, on the valid
3-point input `y = [1,2,3]`, `θ = [2,1,5]` (whose covariate variance 13/3 is
nonzero) the broadcast `y - c*theta` of a (2,2) against a (3,) array fails,
instead of producing `c = Cov(y,θ)/Var(θ)` and a length-3 adjusted series. -/
theorem cuped_adjust_matrix_defect :
    cuped_adjust [(1 : ℝ), 2, 3] [(2 : ℝ), 1, 5] = .shapeError := by
  have hvar : npVar [(2 : ℝ), 1, 5] = 13 / 3 := by
    simp [npVar, npMean]
    norm_num
  unfold cuped_adjust
  rw [if_neg (by norm_num), if_neg (by rw [hvar]; norm_num), if_neg (by norm_num)]

/-- C7: on equal-length series with a zero-variance covariate the adjuster
takes the degenerate branch before any division: the outcome series is
returned unchanged with coefficient 0. -/
theorem cuped_adjust_zero_variance (y θ : List ℝ) (hlen : y.length = θ.length)
    (hlen2 : 2 ≤ θ.length) (hvar : npVar θ = 0) :
    cuped_adjust y θ = .series y 0 := by
  unfold cuped_adjust
  rw [if_neg (not_not_intro hlen), if_pos hvar]

/-- C7 witness: a constant covariate `[3,3]` leaves `y = [1,2]` unchanged
with `c = 0`. -/
theorem cuped_adjust_zero_variance_witness :
    npVar [(3 : ℝ), 3] = 0 ∧
    cuped_adjust [(1 : ℝ), 2] [(3 : ℝ), 3] = .series [(1 : ℝ), 2] 0 := by
  have hv : npVar [(3 : ℝ), 3] = 0 := by
    simp [npVar, npMean]
  exact ⟨hv, cuped_adjust_zero_variance [(1 : ℝ), 2] [(3 : ℝ), 3] rfl
    (by norm_num) hv⟩

/-- C6: the estimator's raise/no-raise boundary is not exactly the documented
validation: on valid mean-comparison input (two 3-observation arms) with
covariates supplied, `ab_means` fails inside the defective `cuped_adjust`
(a numpy shape error, not the validated `InvalidInput`). -/
theorem ab_means_cuped_raises_on_valid_input
    (ppf : ℝ → ℝ) (welch : List ℝ → List ℝ → ℝ) :
    ¬(([(1 : ℝ), 2, 3] : List ℝ).length < 2 ∨ ([(1 : ℝ), 2, 3] : List ℝ).length < 2) ∧
    ab_means ppf welch [(1 : ℝ), 2, 3] [(1 : ℝ), 2, 3] (1 / 20)
        (some [(1 : ℝ), 2, 4]) (some [(1 : ℝ), 2, 4]) =
      .error (.numpyError "shape mismatch in cuped_adjust") := by
  have hcu : cuped_adjust [(1 : ℝ), 2, 3] [(1 : ℝ), 2, 4] = .shapeError := by
    have hvar : npVar [(1 : ℝ), 2, 4] = 7 / 3 := by
      simp [npVar, npMean]
      norm_num
    unfold cuped_adjust
    rw [if_neg (by norm_num), if_neg (by rw [hvar]; norm_num), if_neg (by norm_num)]
  refine ⟨by norm_num, ?_⟩
  unfold ab_means
  rw [if_neg (by norm_num)]
  simp only [hcu]

/-- C3: the Sequential Monitor does not propagate the estimator's
`InvalidInput` failure on malformed counts: for the same out-of-range look
data (`successes = 7 > total = 5` in arm A), `ab_proportions` raises the
typed `InvalidInput`, while `sequential_monitor` silently evaluates the look
and returns a normal one-entry decision list. -/
theorem sequential_monitor_no_validation
    (cdf ppf : ℝ → ℝ) (alpha : ℝ) (cc : Bool) :
    ab_proportions cdf ppf 7 5 1 5 alpha cc =
      .error (.invalidInput "success counts must be between 0 and total.") ∧
    (sequential_monitor ppf [((7 : ℤ), (5 : ℤ))] [((1 : ℤ), (5 : ℤ))] 1 alpha).length
      = 1 := by
  constructor
  · unfold ab_proportions
    rw [if_neg (by norm_num), if_pos (by norm_num)]
  · show (monitorSteps _ _ _ (List.range' 1 1)).length = 1
    rw [show List.range' 1 1 = [1] from rfl]
    simp only [monitorSteps]
    split <;> simp [monitorSteps]

theorem srm_fac_nonneg (p1 m1 m2 : ℝ) (hp1 : 0 ≤ p1) (hm1 : 0 < m1)
    (hm12 : m1 < m2) (hp2 : p1 + m2 ≤ 1) :
    0 ≤ 2 * p1 * (1 - p1) * (m1 + m2) + (1 - 2 * p1) * (m1 * m2) := by
  have hm2 : 0 < m2 := hm1.trans hm12
  have h1mp : 0 ≤ 1 - p1 := by linarith
  rcases le_or_lt p1 (1 / 2) with h | h
  · have h2p : 0 ≤ 1 - 2 * p1 := by linarith
    have t1 : 0 ≤ 2 * p1 * (1 - p1) * (m1 + m2) := by positivity
    have t2 : 0 ≤ (1 - 2 * p1) * (m1 * m2) := by positivity
    linarith
  · have h2p : 0 ≤ 2 * p1 - 1 := by linarith
    have hqm : 0 ≤ 1 - p1 - m1 := by linarith
    nlinarith [mul_nonneg (mul_nonneg h2p hqm) hm2.le,
      mul_nonneg (mul_nonneg hp1 h1mp) hm1.le,
      mul_nonneg h1mp hm2.le]

theorem pbar_cross (p1 m1 m2 : ℝ) (hp1 : 0 ≤ p1) (hm1 : 0 < m1)
    (hm12 : m1 < m2) (hp2 : p1 + m2 ≤ 1) :
    2 * ((p1 + (p1 + m2)) / 2) * (1 - (p1 + (p1 + m2)) / 2) * m1 ^ 2 ≤
      2 * ((p1 + (p1 + m1)) / 2) * (1 - (p1 + (p1 + m1)) / 2) * m2 ^ 2 := by
  have hfac := srm_fac_nonneg p1 m1 m2 hp1 hm1 hm12 hp2
  have hexp : 2 * ((p1 + (p1 + m1)) / 2) * (1 - (p1 + (p1 + m1)) / 2) * m2 ^ 2 -
      2 * ((p1 + (p1 + m2)) / 2) * (1 - (p1 + (p1 + m2)) / 2) * m1 ^ 2 =
      (m2 - m1) * (2 * p1 * (1 - p1) * (m1 + m2) + (1 - 2 * p1) * (m1 * m2)) := by
    ring
  nlinarith [mul_nonneg (sub_nonneg.mpr hm12.le) hfac]

theorem palt_cross (p1 m1 m2 : ℝ) (hp1 : 0 ≤ p1) (hm1 : 0 < m1)
    (hm12 : m1 < m2) (hp2 : p1 + m2 ≤ 1) :
    (p1 * (1 - p1) + (p1 + m2) * (1 - (p1 + m2))) * m1 ^ 2 ≤
      (p1 * (1 - p1) + (p1 + m1) * (1 - (p1 + m1))) * m2 ^ 2 := by
  have hfac := srm_fac_nonneg p1 m1 m2 hp1 hm1 hm12 hp2
  have hexp : (p1 * (1 - p1) + (p1 + m1) * (1 - (p1 + m1))) * m2 ^ 2 -
      (p1 * (1 - p1) + (p1 + m2) * (1 - (p1 + m2))) * m1 ^ 2 =
      (m2 - m1) * (2 * p1 * (1 - p1) * (m1 + m2) + (1 - 2 * p1) * (m1 * m2)) := by
    ring
  nlinarith [mul_nonneg (sub_nonneg.mpr hm12.le) hfac]

theorem sqrt_scale_le (a b m1 m2 : ℝ) (ha : 0 ≤ a) (hb : 0 ≤ b)
    (hm1 : 0 ≤ m1) (hm2 : 0 ≤ m2) (hcross : a * m1 ^ 2 ≤ b * m2 ^ 2) :
    Real.sqrt a * m1 ≤ Real.sqrt b * m2 := by
  calc Real.sqrt a * m1 = Real.sqrt (a * m1 ^ 2) := by
        rw [Real.sqrt_mul ha, Real.sqrt_sq hm1]
    _ ≤ Real.sqrt (b * m2 ^ 2) := Real.sqrt_le_sqrt hcross
    _ = Real.sqrt b * m2 := by rw [Real.sqrt_mul hb, Real.sqrt_sq hm2]

/-- The real-valued power formula `num/den` of `sample_size_proportions` is
antitone in the minimum detectable effect, for nonnegative critical values
and valid rates. -/
theorem power_ratio_antitone (zalpha zbeta p1 m1 m2 : ℝ)
    (hza : 0 ≤ zalpha) (hzb : 0 ≤ zbeta) (hp1 : 0 ≤ p1) (hm1 : 0 < m1)
    (hm12 : m1 < m2) (hp2 : p1 + m2 ≤ 1) :
    (zalpha * Real.sqrt (2 * ((p1 + (p1 + m2)) / 2) * (1 - (p1 + (p1 + m2)) / 2)) +
      zbeta * Real.sqrt (p1 * (1 - p1) + (p1 + m2) * (1 - (p1 + m2)))) ^ 2 /
        (p1 + m2 - p1) ^ 2 ≤
    (zalpha * Real.sqrt (2 * ((p1 + (p1 + m1)) / 2) * (1 - (p1 + (p1 + m1)) / 2)) +
      zbeta * Real.sqrt (p1 * (1 - p1) + (p1 + m1) * (1 - (p1 + m1)))) ^ 2 /
        (p1 + m1 - p1) ^ 2 := by
  have hm2 : 0 < m2 := hm1.trans hm12
  rw [show p1 + m2 - p1 = m2 by ring, show p1 + m1 - p1 = m1 by ring]
  have hA2 : (0 : ℝ) ≤ 2 * ((p1 + (p1 + m2)) / 2) * (1 - (p1 + (p1 + m2)) / 2) := by
    nlinarith
  have hA1 : (0 : ℝ) ≤ 2 * ((p1 + (p1 + m1)) / 2) * (1 - (p1 + (p1 + m1)) / 2) := by
    nlinarith
  have hB2 : (0 : ℝ) ≤ p1 * (1 - p1) + (p1 + m2) * (1 - (p1 + m2)) := by nlinarith
  have hB1 : (0 : ℝ) ≤ p1 * (1 - p1) + (p1 + m1) * (1 - (p1 + m1)) := by nlinarith
  have key1 := sqrt_scale_le _ _ m1 m2 hA2 hA1 hm1.le hm2.le
    (pbar_cross p1 m1 m2 hp1 hm1 hm12 hp2)
  have key2 := sqrt_scale_le _ _ m1 m2 hB2 hB1 hm1.le hm2.le
    (palt_cross p1 m1 m2 hp1 hm1 hm12 hp2)
  rw [div_le_div_iff₀ (by positivity) (by positivity)]
  have hsum : (zalpha * Real.sqrt (2 * ((p1 + (p1 + m2)) / 2) * (1 - (p1 + (p1 + m2)) / 2)) +
      zbeta * Real.sqrt (p1 * (1 - p1) + (p1 + m2) * (1 - (p1 + m2)))) * m1 ≤
      (zalpha * Real.sqrt (2 * ((p1 + (p1 + m1)) / 2) * (1 - (p1 + (p1 + m1)) / 2)) +
      zbeta * Real.sqrt (p1 * (1 - p1) + (p1 + m1) * (1 - (p1 + m1)))) * m2 := by
    have e1 := mul_le_mul_of_nonneg_left key1 hza
    have e2 := mul_le_mul_of_nonneg_left key2 hzb
    nlinarith [e1, e2]
  have hL : 0 ≤ (zalpha * Real.sqrt (2 * ((p1 + (p1 + m2)) / 2) * (1 - (p1 + (p1 + m2)) / 2)) +
      zbeta * Real.sqrt (p1 * (1 - p1) + (p1 + m2) * (1 - (p1 + m2)))) * m1 := by
    have s1 := Real.sqrt_nonneg (2 * ((p1 + (p1 + m2)) / 2) * (1 - (p1 + (p1 + m2)) / 2))
    have s2 := Real.sqrt_nonneg (p1 * (1 - p1) + (p1 + m2) * (1 - (p1 + m2)))
    positivity
  calc (zalpha * Real.sqrt (2 * ((p1 + (p1 + m2)) / 2) * (1 - (p1 + (p1 + m2)) / 2)) +
      zbeta * Real.sqrt (p1 * (1 - p1) + (p1 + m2) * (1 - (p1 + m2)))) ^ 2 * m1 ^ 2
      = ((zalpha * Real.sqrt (2 * ((p1 + (p1 + m2)) / 2) * (1 - (p1 + (p1 + m2)) / 2)) +
      zbeta * Real.sqrt (p1 * (1 - p1) + (p1 + m2) * (1 - (p1 + m2)))) * m1) ^ 2 := by ring
    _ ≤ ((zalpha * Real.sqrt (2 * ((p1 + (p1 + m1)) / 2) * (1 - (p1 + (p1 + m1)) / 2)) +
      zbeta * Real.sqrt (p1 * (1 - p1) + (p1 + m1) * (1 - (p1 + m1)))) * m2) ^ 2 :=
        pow_le_pow_left₀ hL hsum 2
    _ = (zalpha * Real.sqrt (2 * ((p1 + (p1 + m1)) / 2) * (1 - (p1 + (p1 + m1)) / 2)) +
      zbeta * Real.sqrt (p1 * (1 - p1) + (p1 + m1) * (1 - (p1 + m1)))) ^ 2 * m2 ^ 2 := by ring

/-- C8: holding baseline, alpha, power and tailedness fixed, a larger minimum
detectable effect never increases the per-arm sample size returned by
`sample_size_proportions` (for valid inputs with nonnegative critical
values). -/
theorem sample_size_proportions_mde_antitone
    (ppf : ℝ → ℝ) (p1 m1 m2 alpha power : ℝ) (tt : Bool)
    (hp1 : 0 ≤ p1) (hm1 : 0 < m1) (hm12 : m1 < m2) (hp2 : p1 + m2 ≤ 1)
    (hza : 0 ≤ (if tt = true then ppf (1 - alpha / 2) else ppf (1 - alpha)))
    (hzb : 0 ≤ ppf (1 - (1 - power))) :
    sample_size_proportions ppf ⟨p1, m2, alpha, power, tt⟩ ≤
      sample_size_proportions ppf ⟨p1, m1, alpha, power, tt⟩ := by
  unfold sample_size_proportions
  exact Int.ceil_mono (power_ratio_antitone _ _ p1 m1 m2 hza hzb hp1 hm1 hm12 hp2)

/-- C8 witness: the sample-size monotonicity theorem at baseline 1/4
comparing mde 1/4 against mde 1/2, with a constant quantile stand-in. -/
theorem sample_size_proportions_mde_antitone_witness :
    (1 : ℝ) / 4 < 1 / 2 ∧
    sample_size_proportions (fun _ => (1 : ℝ)) ⟨1 / 4, 1 / 2, 1 / 20, 4 / 5, true⟩ ≤
      sample_size_proportions (fun _ => (1 : ℝ)) ⟨1 / 4, 1 / 4, 1 / 20, 4 / 5, true⟩ :=
  ⟨by norm_num,
    sample_size_proportions_mde_antitone (fun _ => (1 : ℝ)) (1 / 4) (1 / 4) (1 / 2)
      (1 / 20) (4 / 5) true (by norm_num) (by norm_num) (by norm_num) (by norm_num)
      (by norm_num) (by norm_num)⟩

/-- The chi-square goodness-of-fit statistic computed inside `srm_check`,
named for use in theorem statements. -/
noncomputable def srmStat (n_a n_b : ℕ) (ra rb : ℝ) : ℝ :=
  ((n_a : ℝ) - ra * ((n_a : ℝ) + (n_b : ℝ))) ^ 2 / (ra * ((n_a : ℝ) + (n_b : ℝ))) +
    ((n_b : ℝ) - rb * ((n_a : ℝ) + (n_b : ℝ))) ^ 2 / (rb * ((n_a : ℝ) + (n_b : ℝ)))

/-- C9: the SRM check flags exactly when the goodness-of-fit p-value is below
the fixed threshold 0.01 (the check takes no experiment alpha at all); with
a 50/50 expectation, `n_a = n_b = 5000` is not flagged (statistic 0, p = 1)
and `n_a = 5000, n_b = 6000` is flagged (statistic 1000/11 ≈ 90.9, whose
df-1 chi-square tail is far below 0.01). -/
theorem srm_check_fixed_threshold (chi2sf : ℝ → ℝ)
    (h0 : chi2sf 0 = 1) (h1 : chi2sf (1000 / 11) < 0.01) :
    (∀ (n_a n_b : ℕ) (ra rb : ℝ),
      (srm_check chi2sf n_a n_b ra rb).srm_flag = true ↔
        (srm_check chi2sf n_a n_b ra rb).p_value < 0.01) ∧
    (srm_check chi2sf 5000 5000 (1 / 2) (1 / 2)).srm_flag = false ∧
    (srm_check chi2sf 5000 6000 (1 / 2) (1 / 2)).srm_flag = true := by
  refine ⟨?_, ?_, ?_⟩
  · intro n_a n_b ra rb
    show (if chi2sf (srmStat n_a n_b ra rb) < 0.01 then true else false) = true ↔
      chi2sf (srmStat n_a n_b ra rb) < 0.01
    by_cases h : chi2sf (srmStat n_a n_b ra rb) < 0.01
    · simp [h]
    · simp [h]
  · show (if chi2sf (srmStat 5000 5000 (1 / 2) (1 / 2)) < 0.01
        then true else false) = false
    rw [show srmStat 5000 5000 (1 / 2) (1 / 2) = 0 by
        unfold srmStat; push_cast; norm_num, h0]
    norm_num
  · show (if chi2sf (srmStat 5000 6000 (1 / 2) (1 / 2)) < 0.01
        then true else false) = true
    rw [show srmStat 5000 6000 (1 / 2) (1 / 2) = 1000 / 11 by
        unfold srmStat; push_cast; norm_num, if_pos h1]

/-- C9 witness: the SRM theorem instantiated with a concrete survival-function
stand-in satisfying the two chi-square facts. -/
theorem srm_check_fixed_threshold_witness :
    (srm_check (fun x => if x ≤ 0 then (1 : ℝ) else 0) 5000 5000 (1 / 2) (1 / 2)).srm_flag
      = false ∧
    (srm_check (fun x => if x ≤ 0 then (1 : ℝ) else 0) 5000 6000 (1 / 2) (1 / 2)).srm_flag
      = true :=
  ⟨(srm_check_fixed_threshold (fun x => if x ≤ 0 then (1 : ℝ) else 0)
      (by norm_num) (by norm_num)).2.1,
    (srm_check_fixed_threshold (fun x => if x ≤ 0 then (1 : ℝ) else 0)
      (by norm_num) (by norm_num)).2.2⟩

/-- The pooled standard error `sqrt(p_pool·(1−p_pool)·(1/n_a + 1/n_b))`
of src/src/ab_test.py line 35, named for use in theorem statements. -/
noncomputable def pooledSE (sa ta sb tb : ℤ) : ℝ :=
  Real.sqrt (((sa : ℝ) + (sb : ℝ)) / ((ta : ℝ) + (tb : ℝ)) *
    (1 - ((sa : ℝ) + (sb : ℝ)) / ((ta : ℝ) + (tb : ℝ))) *
    (1 / (ta : ℝ) + 1 / (tb : ℝ)))

/-- On validated input, `ab_proportions` returns its result record; this spells
the record out once so the per-claim theorems can project from it. -/
theorem ab_proportions_ok (cdf ppf : ℝ → ℝ) (sa ta sb tb : ℤ) (alpha : ℝ)
    (cc : Bool) (hv1 : ¬(ta ≤ 0 ∨ tb ≤ 0))
    (hv2 : 0 ≤ sa ∧ sa ≤ ta ∧ 0 ≤ sb ∧ sb ≤ tb) :
    ab_proportions cdf ppf sa ta sb tb alpha cc = .ok
      ⟨"proportion",
        (sb : ℝ) / (tb : ℝ) - (sa : ℝ) / (ta : ℝ),
        ((sb : ℝ) / (tb : ℝ) - (sa : ℝ) / (ta : ℝ)) -
          ppf (1 - alpha / 2) * pooledSE sa ta sb tb,
        ((sb : ℝ) / (tb : ℝ) - (sa : ℝ) / (ta : ℝ)) +
          ppf (1 - alpha / 2) * pooledSE sa ta sb tb,
        (if 0 < pooledSE sa ta sb tb then
          2 * (1 - cdf |if 0 < pooledSE sa ta sb tb then
            (if cc = true ∧ (sb : ℝ) / (tb : ℝ) - (sa : ℝ) / (ta : ℝ) ≠ 0 then
              ((sb : ℝ) / (tb : ℝ) - (sa : ℝ) / (ta : ℝ)) -
                Real.sign ((sb : ℝ) / (tb : ℝ) - (sa : ℝ) / (ta : ℝ)) *
                (if cc then 1 / (ta : ℝ) + 1 / (tb : ℝ) else 0)
            else (sb : ℝ) / (tb : ℝ) - (sa : ℝ) / (ta : ℝ)) / pooledSE sa ta sb tb
          else 0|)
        else 1),
        ta, tb⟩ := by
  unfold ab_proportions
  rw [if_neg hv1, if_neg (not_not_intro hv2)]
  rfl

/-- C4: with the continuity-correction flag on and a nonzero difference, the
correction `sign(diff)·(1/n_a + 1/n_b)` enters only the test statistic inside
the p-value; the returned lift and both confidence bounds use the uncorrected
difference. -/
theorem ab_proportions_cc_test_stat_only
    (cdf ppf : ℝ → ℝ) (sa ta sb tb : ℤ) (alpha : ℝ)
    (hta : 0 < ta) (htb : 0 < tb) (hsa0 : 0 ≤ sa) (hsata : sa ≤ ta)
    (hsb0 : 0 ≤ sb) (hsbtb : sb ≤ tb)
    (hdiff : (sb : ℝ) / (tb : ℝ) - (sa : ℝ) / (ta : ℝ) ≠ 0) :
    ∃ res, ab_proportions cdf ppf sa ta sb tb alpha true = .ok res ∧
      res.lift = (sb : ℝ) / (tb : ℝ) - (sa : ℝ) / (ta : ℝ) ∧
      res.ci_low = ((sb : ℝ) / (tb : ℝ) - (sa : ℝ) / (ta : ℝ)) -
        ppf (1 - alpha / 2) * pooledSE sa ta sb tb ∧
      res.ci_high = ((sb : ℝ) / (tb : ℝ) - (sa : ℝ) / (ta : ℝ)) +
        ppf (1 - alpha / 2) * pooledSE sa ta sb tb ∧
      res.p_value = (if 0 < pooledSE sa ta sb tb then
        2 * (1 - cdf |(((sb : ℝ) / (tb : ℝ) - (sa : ℝ) / (ta : ℝ)) -
          Real.sign ((sb : ℝ) / (tb : ℝ) - (sa : ℝ) / (ta : ℝ)) *
          (1 / (ta : ℝ) + 1 / (tb : ℝ))) / pooledSE sa ta sb tb|)
        else 1) := by
  rw [ab_proportions_ok cdf ppf sa ta sb tb alpha true (by omega)
    ⟨hsa0, hsata, hsb0, hsbtb⟩]
  refine ⟨_, rfl, rfl, rfl, rfl, ?_⟩
  show (if 0 < pooledSE sa ta sb tb then _ else 1) = _
  by_cases hse : 0 < pooledSE sa ta sb tb
  · rw [if_pos hse, if_pos hse, if_pos hse, if_pos ⟨rfl, hdiff⟩, if_pos rfl]
  · rw [if_neg hse, if_neg hse]

/-- C5: with identical arms (`s_a = s_b`, `n_a = n_b`) on valid input,
`ab_proportions` reports zero lift, p-value exactly 1 (in the `se = 0`
degenerate case as well as through `Φ(0) = 1/2` when `se > 0`), and a
confidence interval symmetric about 0. -/
theorem ab_proportions_equal_arms
    (cdf ppf : ℝ → ℝ) (s n : ℤ) (alpha : ℝ) (cc : Bool)
    (hn : 0 < n) (hs0 : 0 ≤ s) (hsn : s ≤ n) (hcdf : cdf 0 = 1 / 2) :
    ∃ res, ab_proportions cdf ppf s n s n alpha cc = .ok res ∧
      res.lift = 0 ∧ res.p_value = 1 ∧ res.ci_low = -res.ci_high := by
  rw [ab_proportions_ok cdf ppf s n s n alpha cc (by omega) ⟨hs0, hsn, hs0, hsn⟩]
  have hd : (s : ℝ) / (n : ℝ) - (s : ℝ) / (n : ℝ) = 0 := sub_self _
  refine ⟨_, rfl, hd, ?_, ?_⟩
  · show (if 0 < pooledSE s n s n then _ else 1) = 1
    by_cases hse : 0 < pooledSE s n s n
    · rw [if_pos hse, if_pos hse, if_neg (by simp [hd]), hd]
      rw [zero_div, abs_zero, hcdf]
      norm_num
    · rw [if_neg hse]
  · show (s : ℝ) / (n : ℝ) - (s : ℝ) / (n : ℝ) -
        ppf (1 - alpha / 2) * pooledSE s n s n =
      -((s : ℝ) / (n : ℝ) - (s : ℝ) / (n : ℝ) +
        ppf (1 - alpha / 2) * pooledSE s n s n)
    rw [hd]
    ring

/-- C5 witness: the equal-arms theorem at `s = 1, n = 2` with a concrete cdf
satisfying `Φ(0) = 1/2`. -/
theorem ab_proportions_equal_arms_witness :
    (0 : ℤ) < 2 ∧
    ∃ res, ab_proportions (fun _ => (1 / 2 : ℝ)) (fun _ => (0 : ℝ))
        1 2 1 2 (1 / 20) false = .ok res ∧
      res.lift = 0 ∧ res.p_value = 1 ∧ res.ci_low = -res.ci_high :=
  ⟨by norm_num,
    ab_proportions_equal_arms (fun _ => (1 / 2 : ℝ)) (fun _ => (0 : ℝ))
      1 2 (1 / 20) false (by norm_num) (by norm_num) (by norm_num) rfl⟩

/-- C4 witness: the continuity-correction theorem at the concrete input
`(s_a, n_a, s_b, n_b) = (1, 10, 5, 10)`. -/
theorem ab_proportions_cc_test_stat_only_witness :
    ((5 : ℝ) / (10 : ℝ) - (1 : ℝ) / (10 : ℝ) ≠ 0) ∧
    ∃ res, ab_proportions (fun _ => (1 / 2 : ℝ)) (fun _ => (0 : ℝ))
        1 10 5 10 (1 / 20) true = .ok res ∧
      res.lift = (5 : ℝ) / ((10 : ℤ) : ℝ) - (1 : ℝ) / ((10 : ℤ) : ℝ) ∧
      res.ci_low = ((5 : ℝ) / ((10 : ℤ) : ℝ) - (1 : ℝ) / ((10 : ℤ) : ℝ)) -
        (fun _ => (0 : ℝ)) (1 - 1 / 20 / 2) * pooledSE 1 10 5 10 ∧
      res.ci_high = ((5 : ℝ) / ((10 : ℤ) : ℝ) - (1 : ℝ) / ((10 : ℤ) : ℝ)) +
        (fun _ => (0 : ℝ)) (1 - 1 / 20 / 2) * pooledSE 1 10 5 10 ∧
      res.p_value = (if 0 < pooledSE 1 10 5 10 then
        2 * (1 - (fun _ => (1 / 2 : ℝ))
          |(((5 : ℝ) / ((10 : ℤ) : ℝ) - (1 : ℝ) / ((10 : ℤ) : ℝ)) -
            Real.sign ((5 : ℝ) / ((10 : ℤ) : ℝ) - (1 : ℝ) / ((10 : ℤ) : ℝ)) *
            (1 / ((10 : ℤ) : ℝ) + 1 / ((10 : ℤ) : ℝ))) / pooledSE 1 10 5 10|)
        else 1) := by
  constructor
  · norm_num
  · have h := ab_proportions_cc_test_stat_only (fun _ => (1 / 2 : ℝ))
      (fun _ => (0 : ℝ)) 1 10 5 10 (1 / 20)
      (by norm_num) (by norm_num) (by norm_num) (by norm_num)
      (by norm_num) (by norm_num) (by push_cast; norm_num)
    convert h using 4 <;> push_cast <;> norm_num

/-- C10 witness: a look whose z-statistic (exactly 2) equals the boundary
(a constant quantile stand-in returning 2) does not stop, and the monitor
proceeds to the second look. -/
theorem sequential_monitor_strict_boundary_witness :
    (mkLook (pocock_boundaries (fun _ => (2 : ℝ)) (1 / 20) 2)
      [((0 : ℤ), (2 : ℤ)), (0, 2)] [((2 : ℤ), (2 : ℤ)), (2, 2)] 1).stop = false ∧
    1 + 1 ≤ (sequential_monitor (fun _ => (2 : ℝ)) [((0 : ℤ), (2 : ℤ)), (0, 2)]
      [((2 : ℤ), (2 : ℤ)), (2, 2)] 2 (1 / 20)).length := by
  have hz : (mkLook (pocock_boundaries (fun _ => (2 : ℝ)) (1 / 20) 2)
      [((0 : ℤ), (2 : ℤ)), (0, 2)] [((2 : ℤ), (2 : ℤ)), (2, 2)] 1).z =
      (fun _ => (2 : ℝ)) (1 - 1 / 20 / (2 * Real.log (1 + ((2 : ℕ) : ℝ)))) := by
    show |z_stat_proportions 0 2 2 2| = (2 : ℝ)
    rw [z_stat_eval_0_2_2_2]
    norm_num
  have H := sequential_monitor_strict_boundary (fun _ => (2 : ℝ)) (1 / 20) 2
    [((0 : ℤ), (2 : ℤ)), (0, 2)] [((2 : ℤ), (2 : ℤ)), (2, 2)] 1
    (by norm_num) (by norm_num) hz (fun j h1 h2 => absurd (lt_of_le_of_lt h1 h2) (lt_irrefl 1))
  exact ⟨H.1, H.2 (by norm_num)⟩



